import Mathlib

/-!
Verification of the gel-electrophoresis analysis core
(`src/utils/gel_analysis.py`) against its natural-language specification.

The Python functions are shallowly embedded as Lean functions.  Image data
is modelled as lists of rows of rational intensities (`List (List ℚ)`);
NumPy floating arithmetic is modelled exactly over `ℚ` (and over `ℝ` where
the code takes logarithms).  Python exceptions are modelled with
`Except String`: for each embedded function the doc comment states whether
`.error` stands for an uncaught Python exception (a fault) or for the
structured error dictionary the function returns.
-/

namespace GelAnalysis

/-- Equality of embedded Python results is decidable. -/
instance instDecEqExcept {ε α : Type} [DecidableEq ε] [DecidableEq α] :
    DecidableEq (Except ε α)
  | .error a, .error b =>
    if h : a = b then isTrue (by rw [h])
    else isFalse fun hh => h (Except.error.inj hh)
  | .error _, .ok _ => isFalse Except.noConfusion
  | .ok _, .error _ => isFalse Except.noConfusion
  | .ok a, .ok b =>
    if h : a = b then isTrue (by rw [h])
    else isFalse fun hh => h (Except.ok.inj hh)

/-- Python list indexing `l[i]` for an `int` index: negative indices count
from the end; any index outside `[-len, len)` raises `IndexError`,
modelled as `none`. -/
def pyGet {α : Type} (l : List α) (i : ℤ) : Option α :=
  if 0 ≤ i then l.get? i.toNat
  else if 0 ≤ (l.length : ℤ) + i then l.get? ((l.length : ℤ) + i).toNat
  else none

/-- Resolve one endpoint of a Python slice `l[a:b]` to an absolute index. -/
def pySliceIdx (len : ℕ) (i : ℤ) : ℕ :=
  if i < 0 then (max 0 ((len : ℤ) + i)).toNat else (min i (len : ℤ)).toNat

/-- Python slicing `l[a:b]` with `int` endpoints (step 1). -/
def pySlice {α : Type} (l : List α) (a b : ℤ) : List α :=
  let s := pySliceIdx l.length a
  let e := pySliceIdx l.length b
  (l.drop s).take (e - s)

/-- Python `int(q)` on a float: truncation toward zero. -/
def pyInt (q : ℚ) : ℤ :=
  if 0 ≤ q then ⌊q⌋ else -⌊-q⌋

/-- `np.max` over a flattened region, defined on nonempty input
(the caller checks emptiness; `np.max` of an empty array raises). -/
def pyMax (l : List ℚ) : ℚ :=
  l.foldl max (l.headD 0)

/-- Keep the elements of `xs` whose mask entry is `true`
(NumPy boolean-mask indexing `xs[keep]`). -/
def maskFilter {α : Type} : List Bool → List α → List α
  | true :: ks, x :: xs => x :: maskFilter ks xs
  | false :: ks, _ :: xs => maskFilter ks xs
  | _, _ => []

/-- Consecutive pairs of a boundary list: the loop
`for i in range(len(boundaries)-1): lanes.append((boundaries[i], boundaries[i+1]))`. -/
def mkLanes (bs : List ℕ) : List (ℕ × ℕ) :=
  bs.zip bs.tail

/-- A pixel column `x` is covered by one of the half-open lane ranges. -/
def covered (lanes : List (ℕ × ℕ)) (x : ℕ) : Prop :=
  ∃ p ∈ lanes, p.1 ≤ x ∧ x < p.2

instance covered_decidable (lanes : List (ℕ × ℕ)) (x : ℕ) :
    Decidable (covered lanes x) := by
  unfold covered; infer_instance

/-! ### `np.interp`

`np.interp(x, xp, fp)` with `xp` ascending: values left of `xp[0]` are
clamped to `fp[0]`, values right of `xp[-1]` are clamped to `fp[-1]`, and
inside the range the value is linearly interpolated on the surrounding
segment.  The two parallel arrays are passed as one list of pairs. -/

/-- Walk the sample points: `p0` is the last point with `p0.1 ≤ x`
so far; past the last point the value is clamped to it. -/
def interpAux {K : Type} [LinearOrderedField K] (x : K) :
    (K × K) → List (K × K) → K
  | p0, [] => p0.2
  | p0, p1 :: ps =>
    if x ≤ p1.1 then
      p0.2 + (p1.2 - p0.2) / (p1.1 - p0.1) * (x - p0.1)
    else interpAux x p1 ps

/-- `np.interp` over the paired sample list. -/
def interp {K : Type} [LinearOrderedField K] (x : K) : List (K × K) → K
  | [] => 0
  | p0 :: ps => if x < p0.1 then p0.2 else interpAux x p0 ps

/-- `calculate_molecular_weight(band_position, marker_positions, marker_weights)`:
log₁₀-transform the marker weights, run `np.interp` at the band position,
and raise `10` to the resulting power. -/
noncomputable def calculate_molecular_weight
    (band_position : ℝ) (marker_positions marker_weights : List ℝ) : ℝ :=
  (10 : ℝ) ^
    interp band_position
      (marker_positions.zip (marker_weights.map (Real.logb 10)))

/-- Modelled from the spec: "linearly interpolate (and linearly extrapolate
beyond the marker range) the log-weight at the queried position;
exponentiate back (10^x)" — the log-linear extrapolation through the two
markers `(x0, w0)` and `(x1, w1)`, evaluated at `pos`. -/
noncomputable def spec_extrapolated_weight (pos x0 x1 w0 w1 : ℝ) : ℝ :=
  (10 : ℝ) ^
    (Real.logb 10 w0 +
      (Real.logb 10 w1 - Real.logb 10 w0) / (x1 - x0) * (pos - x0))

/-! ### Smoothing and peak finding (external library models)

`scipy.signal.savgol_filter(x, window_length, polyorder)` is an external
library call.  Its contract, which is all the pipeline's claims depend on:
with the default mode `interp` it raises `ValueError` whenever
`window_length` exceeds `len(x)`, and otherwise returns a smoothed signal
of the same length.  The numeric smoothing kernel itself is abstracted as
a parameter `kernel` (theorems assume only that it preserves length;
concrete instances use `id`, which agrees with a Savitzky–Golay fit on
constant profiles). -/

/-- Model of `scipy.signal.savgol_filter`; `.error` is the uncaught
`ValueError` fault. -/
def savgol_filter (kernel : List ℚ → List ℚ) (x : List ℚ) (window : ℕ) :
    Except String (List ℚ) :=
  if x.length < window then
    .error "ValueError: window_length must be less than or equal to the size of x"
  else .ok (kernel x)

/-- Scan forward from `i` while the sample equals the plateau value `v`,
stopping at `iMax` (the plateau scan of scipy's `_local_maxima_1d`).
The first argument of the recursion is fuel, always called with at least
`iMax` so the scan never runs out. -/
def plateauEnd (x : List ℚ) (v : ℚ) (iMax : ℕ) : ℕ → ℕ → ℕ
  | 0, i => i
  | fuel + 1, i =>
    if i < iMax ∧ x.getD i 0 = v then plateauEnd x v iMax fuel (i + 1) else i

/-- Main loop of scipy's `_local_maxima_1d`: strict local maxima, with a
plateau reported at its midpoint.  `iMax = n - 1`; indices `0` and `n-1`
are never maxima.  Fueled structural recursion (fuel ≥ number of steps). -/
def localMaximaAux (x : List ℚ) (iMax : ℕ) : ℕ → ℕ → List ℕ
  | 0, _ => []
  | fuel + 1, i =>
    if i < iMax then
      if x.getD (i - 1) 0 < x.getD i 0 then
        let iAhead := plateauEnd x (x.getD i 0) iMax x.length (i + 1)
        if x.getD iAhead 0 < x.getD i 0 then
          ((i + iAhead - 1) / 2) :: localMaximaAux x iMax fuel (iAhead + 1)
        else localMaximaAux x iMax fuel (i + 1)
      else localMaximaAux x iMax fuel (i + 1)
    else []

/-- All local maxima of a 1-D signal, ascending (scipy `_local_maxima_1d`). -/
def localMaxima (x : List ℚ) : List ℕ :=
  localMaximaAux x (x.length - 1) x.length 1

/-- Stable insertion of index `i` into an index list ascending by
`priority` value (ties keep earlier-inserted indices first). -/
def insertIdx (priority : List ℚ) (i : ℕ) : List ℕ → List ℕ
  | [] => [i]
  | j :: js =>
    if priority.getD j 0 ≤ priority.getD i 0 then j :: insertIdx priority i js
    else i :: j :: js

/-- `np.argsort(priority)` (ascending).  NumPy's default sort leaves the
order of ties unspecified; the model uses a stable sort, and no claim
depends on tie order. -/
def argsortAsc (priority : List ℚ) : List ℕ :=
  (List.range priority.length).foldl (fun acc i => insertIdx priority i acc) []

/-- Clear `keep[k]` walking left from `j` while the peak distance is below
`dist`, stopping at the first peak far enough away (scipy
`_select_by_peak_distance`, left while-loop). -/
def clearLeft (peaks : List ℕ) (dist : ℕ) (j : ℕ) (keep : List Bool) :
    List Bool :=
  ((List.range j).reverse.foldl
    (fun st k =>
      if st.2 then st
      else if peaks.getD j 0 - peaks.getD k 0 < dist then
        (st.1.set k false, false)
      else (st.1, true))
    (keep, false)).1

/-- Right while-loop of scipy `_select_by_peak_distance`. -/
def clearRight (peaks : List ℕ) (dist : ℕ) (j : ℕ) (keep : List Bool) :
    List Bool :=
  ((List.range' (j + 1) (peaks.length - (j + 1))).foldl
    (fun st k =>
      if st.2 then st
      else if peaks.getD k 0 - peaks.getD j 0 < dist then
        (st.1.set k false, false)
      else (st.1, true))
    (keep, false)).1

/-- scipy `_select_by_peak_distance`: visit peaks from highest priority to
lowest; each surviving peak clears its neighbours closer than `dist`. -/
def selectByPeakDistance (peaks : List ℕ) (priority : List ℚ) (dist : ℕ) :
    List Bool :=
  ((argsortAsc priority).reverse.foldl
    (fun keep j =>
      if keep.getD j true = false then keep
      else clearRight peaks dist j (clearLeft peaks dist j keep))
    (List.replicate peaks.length true))

/-- `scipy.signal.find_peaks(x, distance=dist)`: local maxima filtered by
minimum inter-peak distance.  `.error` is the uncaught `ValueError` fault
raised when `distance < 1`. -/
def find_peaks_dist (x : List ℚ) (dist : ℕ) : Except String (List ℕ) :=
  if dist < 1 then .error "ValueError: distance must be greater or equal to 1"
  else
    let peaks0 := localMaxima x
    .ok (maskFilter
      (selectByPeakDistance peaks0 (peaks0.map fun p => x.getD p 0) dist)
      peaks0)

/-- Prominence of the peak at index `p` (scipy `_peak_prominences`):
walk outward from the peak while samples do not exceed its height,
take the minimum on each side, and subtract the larger minimum. -/
def peakProminence (x : List ℚ) (p : ℕ) : ℚ :=
  let h := x.getD p 0
  let leftSeg := ((x.take p).reverse).takeWhile (fun v => v ≤ h)
  let rightSeg := (x.drop (p + 1)).takeWhile (fun v => v ≤ h)
  h - max (leftSeg.foldl min h) (rightSeg.foldl min h)

/-- Population mean of a signal (`np.mean`). -/
def listMean (l : List ℚ) : ℚ :=
  l.sum / l.length

/-- Population variance of a signal (`np.std` squared, `ddof = 0`). -/
def listVariance (l : List ℚ) : ℚ :=
  ((l.map fun v => (v - listMean l) ^ 2).sum) / l.length

/-- `scipy.signal.find_peaks(x, distance=dist, prominence=pmin)` where the
threshold `pmin = 0.5 * np.std(x)` is irrational over `ℚ`; since both the
prominence and the threshold are nonnegative, the test
`pmin ≤ prominence` is encoded exactly as `pmin² ≤ prominence²`, and the
caller passes `promSqThreshold = 0.25 * variance`.  Returns the surviving
peaks paired with their prominences. -/
def find_peaks_dist_prom (x : List ℚ) (dist : ℕ) (promSqThreshold : ℚ) :
    Except String (List (ℕ × ℚ)) :=
  match find_peaks_dist x dist with
  | .error e => .error e
  | .ok peaks1 =>
    .ok ((peaks1.map fun p => (p, peakProminence x p)).filter
      fun pr => promSqThreshold ≤ pr.2 ^ 2)

/-! ### The pipeline functions -/

/-- The boundary-construction tail of `detect_lanes`: with separator
peaks found, pair the consecutive boundaries `[0] + peaks + [width]`;
with none, fall back to `N` equal-width lanes (when `N` is known and
truthy) or one full-width lane. -/
def lanesFromPeaks (width : ℕ) (num_lanes : Option ℕ) (peaks : List ℕ) :
    List (ℕ × ℕ) :=
  if peaks.isEmpty then
    match num_lanes with
    | some n =>
      if n = 0 then [(0, width)]
      else (List.range n).map fun i => (i * (width / n), (i + 1) * (width / n))
    | none => [(0, width)]
  else mkLanes (0 :: (peaks ++ [width]))

/-- `detect_lanes(image, num_lanes, method)`.  `.error` is an uncaught
Python fault: `ValueError` out of `savgol_filter` or `find_peaks`, or the
`UnboundLocalError` of the non-`projection` method path.  `some 0` for
`num_lanes` behaves like `None` (Python truthiness `if num_lanes:`). -/
def detect_lanes (kernel : List ℚ → List ℚ) (image : List (List ℚ))
    (num_lanes : Option ℕ) (method : String) :
    Except String (List (ℕ × ℕ)) :=
  let width := (image.headD []).length
  if method = "projection" then
    let vertical_profile :=
      (List.range width).map fun j => (image.map fun row => row.getD j 0).sum
    match savgol_filter kernel vertical_profile 51 with
    | .error e => .error e
    | .ok smoothed =>
      let dist : ℕ :=
        match num_lanes with
        | some n => if n = 0 then 50 else width / (n + 1)
        | none => 50
      match find_peaks_dist (smoothed.map fun v => -v) dist with
      | .error e => .error e
      | .ok peaks => .ok (lanesFromPeaks width num_lanes peaks)
  else .error "UnboundLocalError: local variable referenced before assignment"

/-- A band dictionary as produced by `detect_bands`. -/
structure DetectedBand where
  position : ℕ
  intensity : ℚ
  prominence : ℚ
  width : ℚ
  deriving DecidableEq

/-- `detect_bands(lane_image, threshold_method, min_distance)`.  `.error`
is the uncaught `ValueError` fault out of `savgol_filter` when the lane's
height is below the smoothing window of 11 samples.  The `widths`
property is absent (no `width` argument to `find_peaks`), so the band
width field is `0`. -/
def detect_bands (kernel : List ℚ → List ℚ) (lane_image : List (List ℚ))
    (min_distance : ℕ) : Except String (List DetectedBand) :=
  let horizontal_profile :=
    lane_image.map fun row => row.sum / (row.length : ℚ)
  match savgol_filter kernel horizontal_profile 11 with
  | .error e => .error e
  | .ok smoothed =>
    match find_peaks_dist_prom smoothed min_distance
        (listVariance smoothed / 4) with
    | .error e => .error e
    | .ok peaks =>
      .ok (peaks.map fun pr =>
        { position := pr.1
          intensity := smoothed.getD pr.1 0
          prominence := pr.2
          width := 0 })

/-- The metrics dictionary returned by `quantify_band`. -/
structure BandMetrics where
  position : ℤ
  mean_intensity : ℚ
  max_intensity : ℚ
  total_intensity : ℚ
  area : ℕ
  volume : ℚ
  width : ℚ
  deriving DecidableEq

/-- `quantify_band(lane_image, band_position, band_width)`: clip the band
region `[position - width/2, position + width/2)` to the lane and report
intensity metrics over it.  `.error` is the uncaught `ValueError` fault
`np.max` raises on an empty region (possible only for positions far
outside the lane or a zero-width lane). -/
def quantify_band (lane_image : List (List ℚ)) (band_position : ℤ)
    (band_width : Option ℚ) : Except String BandMetrics :=
  let height := lane_image.length
  let bw : ℚ := band_width.getD 20
  let y_start : ℤ := max 0 (pyInt ((band_position : ℚ) - bw / 2))
  let y_end : ℤ := min (height : ℤ) (pyInt ((band_position : ℚ) + bw / 2))
  let band_region := pySlice lane_image y_start y_end
  let flat := band_region.flatten
  if flat.isEmpty then
    .error "ValueError: zero-size array to reduction operation maximum which has no identity"
  else
    .ok { position := band_position
          mean_intensity := flat.sum / flat.length
          max_intensity := pyMax flat
          total_intensity := flat.sum
          area := flat.length
          volume := flat.sum
          width := bw }

/-! ### Result records, normalization and comparison -/

/-- A quantified band record inside a `GelAnalysisResult` (the detection
dictionary updated with the quantification metrics; `normalized_intensity`
is present only after a normalization pass). -/
structure Band where
  position : ℚ
  intensity : ℚ
  prominence : ℚ
  width : ℚ
  mean_intensity : ℚ
  max_intensity : ℚ
  total_intensity : ℚ
  area : ℕ
  volume : ℚ
  normalized_intensity : Option ℚ
  deriving DecidableEq

/-- One lane's entry in a `GelAnalysisResult`. -/
structure LaneResult where
  lane_number : ℕ
  bounds : ℕ × ℕ
  num_bands : ℕ
  bands : List Band
  deriving DecidableEq

/-- The value returned by `analyze_gel`. -/
structure GelAnalysisResult where
  num_lanes : ℕ
  lanes : List LaneResult
  deriving DecidableEq

/-- Per-lane total: `sum(band['total_intensity'] for band in lane['bands'])`. -/
def laneTotal (lane : LaneResult) : ℚ :=
  (lane.bands.map Band.total_intensity).sum

/-- The body of the inner normalization loop: the in-place write
`band['normalized_intensity'] = band['total_intensity'] * factor`. -/
def writeNormalized (factor : ℚ) (b : Band) : Band :=
  { b with normalized_intensity := some (b.total_intensity * factor) }

/-- The body of the outer normalization loop over `(lane, lane_total)`
pairs: compute the lane's scale factor (1 for a nonpositive total) and
write every band's `normalized_intensity`. -/
def enrichLane (norm_factor : ℚ) (lt : LaneResult × ℚ) : LaneResult :=
  { lt.1 with
    bands := lt.1.bands.map
      (writeNormalized (if lt.2 > 0 then norm_factor / lt.2 else 1)) }

/-- `normalize_lanes(gel_results, reference_lane, method)`.  The Python
function mutates the band dictionaries reachable from its argument and
returns the argument itself, so this state-passing embedding returns the
post-call state of the argument, which is also the returned object.
`.error` is the uncaught `IndexError` fault raised by
`lane_totals[reference_lane]` on an out-of-range reference index. -/
def normalize_lanes (gel_results : GelAnalysisResult)
    (reference_lane : Option ℤ) (method : String) :
    Except String GelAnalysisResult :=
  if method = "total_intensity" then
    let lane_totals := gel_results.lanes.map laneTotal
    let norm_factor? : Option ℚ :=
      match reference_lane with
      | some r => pyGet lane_totals r
      | none => some (listMean lane_totals)
    match norm_factor? with
    | none => .error "IndexError: list index out of range"
    | some norm_factor =>
      .ok { gel_results with
            lanes := (gel_results.lanes.zip lane_totals).map
              (enrichLane norm_factor) }
  else .ok gel_results

/-- The comparison dictionary returned by `compare_bands` on success. -/
structure CompareMetrics where
  lane1_intensity : ℚ
  lane2_intensity : ℚ
  ratio : ℚ
  fold_change : ℚ
  percent_difference : ℚ
  deriving DecidableEq

/-- The arithmetic tail of `compare_bands` on the two bands' total
intensities: `ratio = t1/t2` (`ZeroDivisionError` when `t2 = 0`),
`fold_change = ratio if ratio >= 1 else -1/ratio` (`ZeroDivisionError`
when the ratio itself is 0), `percent_difference = (t1-t2)/t2*100`. -/
def mkComparison (t1 t2 : ℚ) : Except String CompareMetrics :=
  if t2 = 0 then .error "float division by zero"
  else if 1 ≤ t1 / t2 then
    .ok { lane1_intensity := t1
          lane2_intensity := t2
          ratio := t1 / t2
          fold_change := t1 / t2
          percent_difference := (t1 - t2) / t2 * 100 }
  else if t1 / t2 = 0 then .error "float division by zero"
  else
    .ok { lane1_intensity := t1
          lane2_intensity := t2
          ratio := t1 / t2
          fold_change := -1 / (t1 / t2)
          percent_difference := (t1 - t2) / t2 * 100 }

/-- `compare_bands(gel_results, lane1, lane2, band_index)`.  Here
`.error` models the *structured* error dictionary `\x7b'error': str(e)\x7d`
the function returns after catching `IndexError` or `ZeroDivisionError`;
no exception escapes this function. -/
def compare_bands (gel_results : GelAnalysisResult)
    (lane1 lane2 band_index : ℤ) : Except String CompareMetrics :=
  match pyGet gel_results.lanes lane1 with
  | none => .error "list index out of range"
  | some l1 =>
    match pyGet l1.bands band_index with
    | none => .error "list index out of range"
    | some band1 =>
      match pyGet gel_results.lanes lane2 with
      | none => .error "list index out of range"
      | some l2 =>
        match pyGet l2.bands band_index with
        | none => .error "list index out of range"
        | some band2 => mkComparison band1.total_intensity band2.total_intensity

/-! ### Fixtures and helper lemmas -/

/-- A band record carrying only a total intensity (all other metrics 0,
no normalization field yet). -/
def mkBand (t : ℚ) : Band :=
  { position := 0, intensity := 0, prominence := 0, width := 0,
    mean_intensity := 0, max_intensity := 0, total_intensity := t,
    area := 0, volume := 0, normalized_intensity := none }

/-- A lane record with the given bands. -/
def mkLaneRes (k : ℕ) (bs : List Band) : LaneResult :=
  { lane_number := k, bounds := (0, 1), num_bands := bs.length, bands := bs }

/-- One lane, one band of total intensity 2, not yet normalized. -/
def gSingle : GelAnalysisResult := ⟨1, [mkLaneRes 1 [mkBand 2]]⟩

/-- `gSingle` after the in-place normalization pass wrote
`normalized_intensity` into its band. -/
def gSingleWritten : GelAnalysisResult :=
  ⟨1, [mkLaneRes 1 [{ mkBand 2 with normalized_intensity := some 2 }]]⟩

/-- One lane whose only band has total intensity 0. -/
def gZeroBand : GelAnalysisResult := ⟨1, [mkLaneRes 1 [mkBand 0]]⟩

/-- Two lanes: the first lane's band has total 0, the second's total 5. -/
def gZeroFive : GelAnalysisResult :=
  ⟨2, [mkLaneRes 1 [mkBand 0], mkLaneRes 2 [mkBand 5]]⟩

/-- The two-step Python lookup
`gel_results['lanes'][lane]['bands'][band_index]`, `none` when either
index raises `IndexError`. -/
def bandLookup (g : GelAnalysisResult) (lane bi : ℤ) : Option Band :=
  (pyGet g.lanes lane).bind fun l => pyGet l.bands bi

/-- `pyGet` at a nonnegative index is plain list lookup. -/
theorem pyGet_natCast {α : Type} (l : List α) (n : ℕ) :
    pyGet l (n : ℤ) = l.get? n := by
  simp [pyGet]

/-- Lookup inside a zip, in `Option` form. -/
theorem zip_get? {α β : Type} :
    ∀ (l : List α) (l' : List β) (i : ℕ),
      (l.zip l').get? i =
        (l.get? i).bind fun a => (l'.get? i).map fun b => (a, b)
  | [], _, _ => by simp
  | _ :: _, [], _ => by simp
  | _ :: _, _ :: _, 0 => by simp [List.zip_cons_cons]
  | _ :: l, _ :: l', i + 1 => by
    simpa [List.zip_cons_cons] using zip_get? l l' i

/-- A list mapped onto itself is fixed pointwise. -/
theorem map_eq_self_mem {α : Type} (f : α → α) :
    ∀ (l : List α), l.map f = l → ∀ x ∈ l, f x = x
  | [], _, x, hx => absurd hx (List.not_mem_nil x)
  | a :: l, h, x, hx => by
    rw [List.map_cons] at h
    rcases List.mem_cons.mp hx with rfl | hx
    · exact (List.cons.inj h).1
    · exact map_eq_self_mem f l (List.cons.inj h).2 x hx

/-- The normalization pass rewrites every band's `normalized_intensity`
field, so its output differs from any input list containing a band
without that field. -/
theorem normalized_write_ne (f : LaneResult → ℚ) (nf : ℚ) :
    ∀ (ls : List LaneResult) (lane : LaneResult) (b : Band),
      lane ∈ ls → b ∈ lane.bands → b.normalized_intensity = none →
      (ls.zip (ls.map f)).map (enrichLane nf) ≠ ls
  | [], lane, b, hl, _, _ => absurd hl (List.not_mem_nil lane)
  | l0 :: ls, lane, b, hl, hb, hn => by
    intro hEq
    rw [List.map_cons, List.zip_cons_cons, List.map_cons] at hEq
    have h1 := (List.cons.inj hEq).1
    have h2 := (List.cons.inj hEq).2
    rcases List.mem_cons.mp hl with rfl | hl
    · have hbands := congrArg LaneResult.bands h1
      simp only [enrichLane] at hbands
      have := congrArg Band.normalized_intensity
        (map_eq_self_mem _ _ hbands b hb)
      rw [writeNormalized, hn] at this
      exact Option.some_ne_none _ this
    · exact normalized_write_ne f nf ls lane b hl hb hn h2

/-- In an ascending pair list, every element after the head has a larger
first component than the head. -/
theorem chain_fst_lt_of_get? {K : Type} [LinearOrderedField K] :
    ∀ (ps : List (K × K)) (p : K × K),
      List.Chain' (fun a b : K × K => a.1 < b.1) (p :: ps) →
      ∀ (i : ℕ) (q : K × K), ps.get? i = some q → p.1 < q.1
  | [], _, _, i, _, hq => by simp at hq
  | _ :: _, _, h, 0, q, hq => by
    rw [List.get?_cons_zero] at hq
    obtain rfl := Option.some.inj hq
    exact (List.chain'_cons.mp h).1
  | r :: ps', p, h, i + 1, q, hq => by
    rw [List.get?_cons_succ] at hq
    exact lt_trans (List.chain'_cons.mp h).1
      (chain_fst_lt_of_get? ps' r (List.chain'_cons.mp h).2 i q hq)

/-- `interpAux` evaluated at the position of a later sample point returns
that point's value (ascending sample positions). -/
theorem interpAux_at_get? {K : Type} [LinearOrderedField K] :
    ∀ (ps : List (K × K)) (p0 : K × K),
      List.Chain' (fun a b : K × K => a.1 < b.1) (p0 :: ps) →
      ∀ (i : ℕ) (q : K × K), ps.get? i = some q →
        interpAux q.1 p0 ps = q.2
  | [], _, _, i, _, hq => by simp at hq
  | p1 :: ps', p0, h, 0, q, hq => by
    rw [List.get?_cons_zero] at hq
    obtain rfl := Option.some.inj hq
    show interpAux p1.1 p0 (p1 :: ps') = p1.2
    simp only [interpAux]
    rw [if_pos le_rfl]
    have hne : p1.1 - p0.1 ≠ 0 :=
      sub_ne_zero.mpr (ne_of_gt (List.chain'_cons.mp h).1)
    rw [div_mul_cancel₀ _ hne]
    ring
  | p1 :: ps', p0, h, i + 1, q, hq => by
    rw [List.get?_cons_succ] at hq
    have hlt : p1.1 < q.1 :=
      chain_fst_lt_of_get? ps' p1 (List.chain'_cons.mp h).2 i q hq
    show interpAux q.1 p0 (p1 :: ps') = q.2
    simp only [interpAux]
    rw [if_neg (not_le.mpr hlt)]
    exact interpAux_at_get? ps' p1 (List.chain'_cons.mp h).2 i q hq

/-- `np.interp` evaluated exactly at the i-th sample position returns the
i-th sample value, for strictly ascending sample positions. -/
theorem interp_at_get? {K : Type} [LinearOrderedField K]
    (ps : List (K × K))
    (h : List.Chain' (fun a b : K × K => a.1 < b.1) ps)
    (i : ℕ) (q : K × K) (hq : ps.get? i = some q) :
    interp q.1 ps = q.2 := by
  cases ps with
  | nil => simp at hq
  | cons p0 rest =>
    cases i with
    | zero =>
      rw [List.get?_cons_zero] at hq
      obtain rfl := Option.some.inj hq
      simp only [interp]
      rw [if_neg (lt_irrefl p0.1)]
      cases rest with
      | nil => rfl
      | cons p1 rest' =>
        simp only [interpAux]
        rw [if_pos (le_of_lt (List.chain'_cons.mp h).1), sub_self, mul_zero,
          add_zero]
    | succ j =>
      rw [List.get?_cons_succ] at hq
      have hlt : p0.1 < q.1 := chain_fst_lt_of_get? rest p0 h j q hq
      simp only [interp]
      rw [if_neg (not_lt.mpr (le_of_lt hlt))]
      exact interpAux_at_get? rest p0 h j q hq

/-- Zipping an ascending position list with values gives an ascending
pair list. -/
theorem chain_zip_fst {K : Type} [LinearOrderedField K] :
    ∀ (xs ys : List K), List.Chain' (· < ·) xs →
      List.Chain' (fun a b : K × K => a.1 < b.1) (xs.zip ys)
  | [], _, _ => by simp
  | _ :: _, [], _ => by simp
  | [_], _ :: _, _ => by simp
  | _ :: _ :: _, [_], _ => by simp [List.zip_cons_cons]
  | x1 :: x2 :: xs, _ :: y2 :: ys, h => by
    rw [List.zip_cons_cons]
    exact List.chain'_cons.mpr ⟨(List.chain'_cons.mp h).1,
      chain_zip_fst (x2 :: xs) (y2 :: ys) (List.chain'_cons.mp h).2⟩

/-- `int()` truncation is the identity on integer-valued rationals. -/
theorem pyInt_intCast (n : ℤ) : pyInt (n : ℚ) = n := by
  unfold pyInt
  split
  · exact Int.floor_intCast n
  · rw [show (-(n : ℚ)) = ((-n : ℤ) : ℚ) by push_cast; ring,
      Int.floor_intCast, neg_neg]

/-- A Python slice with in-range nonnegative endpoints is drop-then-take. -/
theorem pySlice_nonneg {α : Type} (l : List α) (a b : ℤ)
    (ha0 : 0 ≤ a) (hal : a ≤ l.length) (hb0 : 0 ≤ b) (hbl : b ≤ l.length) :
    pySlice l a b = (l.drop a.toNat).take (b.toNat - a.toNat) := by
  unfold pySlice pySliceIdx
  rw [if_neg (not_lt.mpr ha0), if_neg (not_lt.mpr hb0),
    min_eq_left hal, min_eq_left hbl]

/-- Total length of a flattened grid whose rows all have length `w`. -/
theorem sum_map_length_const {α : Type} :
    ∀ (l : List (List α)) (w : ℕ), (∀ r ∈ l, r.length = w) →
      (l.map List.length).sum = l.length * w
  | [], _, _ => by simp
  | r :: l, w, hl => by
    rw [List.map_cons, List.sum_cons,
      sum_map_length_const l w (fun x hx => hl x (List.mem_cons_of_mem r hx)),
      hl r (List.mem_cons_self r l), List.length_cons]
    ring

/-- The plateau scan never moves backwards. -/
theorem plateauEnd_ge (x : List ℚ) (v : ℚ) (iMax : ℕ) :
    ∀ (fuel i : ℕ), i ≤ plateauEnd x v iMax fuel i
  | 0, i => le_refl i
  | fuel + 1, i => by
    simp only [plateauEnd]
    split
    · exact le_trans (Nat.le_succ i) (plateauEnd_ge x v iMax fuel (i + 1))
    · exact le_refl i

/-- The plateau scan stops at `iMax`. -/
theorem plateauEnd_le (x : List ℚ) (v : ℚ) (iMax : ℕ) :
    ∀ (fuel i : ℕ), i ≤ iMax → plateauEnd x v iMax fuel i ≤ iMax
  | 0, _, h => h
  | fuel + 1, i, h => by
    simp only [plateauEnd]
    split
    · next hc => exact plateauEnd_le x v iMax fuel (i + 1) hc.1
    · exact h

/-- The local-maxima scan starting at `i ≥ 1` returns indices in
`[i, iMax)` in strictly increasing order. -/
theorem localMaximaAux_spec (x : List ℚ) (iMax : ℕ) :
    ∀ (fuel i : ℕ), 1 ≤ i →
      (∀ p ∈ localMaximaAux x iMax fuel i, i ≤ p ∧ p < iMax) ∧
      List.Pairwise (· < ·) (localMaximaAux x iMax fuel i)
  | 0, i, _ => by simp [localMaximaAux]
  | fuel + 1, i, h1 => by
    simp only [localMaximaAux]
    split
    · next hi =>
      split
      · next hrise =>
        generalize hj : plateauEnd x (x.getD i 0) iMax x.length (i + 1) = j
        have hj1 : i + 1 ≤ j := hj ▸ plateauEnd_ge x (x.getD i 0) iMax _ _
        have hj2 : j ≤ iMax := hj ▸ plateauEnd_le x (x.getD i 0) iMax _ _ hi
        split
        · next hfall =>
          have ih := localMaximaAux_spec x iMax fuel (j + 1) (by omega)
          constructor
          · intro p hp
            rcases List.mem_cons.mp hp with rfl | hp
            · omega
            · have := ih.1 p hp
              omega
          · refine List.pairwise_cons.mpr ⟨?_, ih.2⟩
            intro q hq
            have := ih.1 q hq
            omega
        · exact localMaximaAux_spec x iMax fuel (i + 1) (by omega) |>.imp
            (fun hb p hp => by have := hb p hp; omega) id
      · exact localMaximaAux_spec x iMax fuel (i + 1) (by omega) |>.imp
          (fun hb p hp => by have := hb p hp; omega) id
    · simp

/-- The indices returned by `localMaxima` are interior strict maxima
positions: in `[1, n-1)` and strictly increasing. -/
theorem localMaxima_spec (x : List ℚ) :
    (∀ p ∈ localMaxima x, 1 ≤ p ∧ p < x.length - 1) ∧
      List.Pairwise (· < ·) (localMaxima x) := by
  unfold localMaxima
  exact localMaximaAux_spec x (x.length - 1) x.length 1 le_rfl

/-- Boolean-mask filtering yields a sublist. -/
theorem maskFilter_sublist {α : Type} :
    ∀ (ks : List Bool) (xs : List α), List.Sublist (maskFilter ks xs) xs
  | [], xs => by
    simp only [maskFilter]
    exact List.nil_sublist xs
  | _ :: _, [] => by
    simp only [maskFilter]
    exact List.Sublist.refl []
  | true :: ks, x :: xs => by
    simp only [maskFilter]
    exact List.Sublist.cons₂ x (maskFilter_sublist ks xs)
  | false :: ks, x :: xs => by
    simp only [maskFilter]
    exact List.Sublist.cons x (maskFilter_sublist ks xs)

/-- Any peak list returned by `find_peaks` consists of interior indices
in strictly increasing order. -/
theorem find_peaks_dist_spec (x : List ℚ) (dist : ℕ) (peaks : List ℕ)
    (h : find_peaks_dist x dist = Except.ok peaks) :
    (∀ p ∈ peaks, 1 ≤ p ∧ p < x.length - 1) ∧
      List.Pairwise (· < ·) peaks := by
  unfold find_peaks_dist at h
  split at h
  · exact absurd h (by simp)
  · obtain rfl := Except.ok.inj h
    have hsub := maskFilter_sublist
      (selectByPeakDistance (localMaxima x)
        ((localMaxima x).map fun p => x.getD p 0) dist) (localMaxima x)
    exact ⟨fun p hp => (localMaxima_spec x).1 p (hsub.subset hp),
      (localMaxima_spec x).2.sublist hsub⟩

/-- The last element of a strictly ascending list bounds its head. -/
theorem getLast?_ge_head (c : ℕ) :
    ∀ (cs : List ℕ) (L : ℕ), List.Chain' (· < ·) (c :: cs) →
      (c :: cs).getLast? = some L → c ≤ L
  | [], L, _, hL => by
    rw [List.getLast?_singleton] at hL
    obtain rfl := Option.some.inj hL
    exact le_refl c
  | d :: cs, L, h, hL => by
    rw [List.getLast?_cons_cons] at hL
    exact le_of_lt (lt_of_lt_of_le (List.chain'_cons.mp h).1
      (getLast?_ge_head d cs L (List.chain'_cons.mp h).2 hL))

/-- Every lane built from a strictly ascending boundary list is a
nonempty half-open range. -/
theorem mkLanes_mem_lt :
    ∀ (bs : List ℕ), List.Chain' (· < ·) bs →
      ∀ p ∈ mkLanes bs, p.1 < p.2
  | [], _, p, hp => absurd hp (by simp [mkLanes])
  | [b], _, p, hp => absurd hp (by simp [mkLanes])
  | b0 :: b1 :: bs, h, p, hp => by
    rw [show mkLanes (b0 :: b1 :: bs) = (b0, b1) :: mkLanes (b1 :: bs) from rfl]
      at hp
    rcases List.mem_cons.mp hp with rfl | hp
    · exact (List.chain'_cons.mp h).1
    · exact mkLanes_mem_lt (b1 :: bs) (List.chain'_cons.mp h).2 p hp

/-- Every lane built on boundaries starting at `b` starts at `b` or
later. -/
theorem mkLanes_start_ge :
    ∀ (b : ℕ) (bs : List ℕ), List.Chain' (· < ·) (b :: bs) →
      ∀ q ∈ mkLanes (b :: bs), b ≤ q.1
  | _, [], _, q, hq => absurd hq (by simp [mkLanes])
  | b, b1 :: bs, h, q, hq => by
    rw [show mkLanes (b :: b1 :: bs) = (b, b1) :: mkLanes (b1 :: bs)
      from rfl] at hq
    rcases List.mem_cons.mp hq with rfl | hq
    · exact le_refl b
    · exact le_trans (le_of_lt (List.chain'_cons.mp h).1)
        (mkLanes_start_ge b1 bs (List.chain'_cons.mp h).2 q hq)

/-- Lanes built from a strictly ascending boundary list are ordered and
pairwise disjoint (each lane ends no later than any later lane starts). -/
theorem mkLanes_pairwise :
    ∀ (bs : List ℕ), List.Chain' (· < ·) bs →
      List.Pairwise (fun p q : ℕ × ℕ => p.2 ≤ q.1) (mkLanes bs)
  | [], _ => by simp [mkLanes]
  | [b], _ => by simp [mkLanes]
  | b0 :: b1 :: bs, h => by
    rw [show mkLanes (b0 :: b1 :: bs) = (b0, b1) :: mkLanes (b1 :: bs)
      from rfl]
    refine List.pairwise_cons.mpr ⟨?_, mkLanes_pairwise (b1 :: bs)
      (List.chain'_cons.mp h).2⟩
    intro q hq
    exact mkLanes_start_ge b1 bs (List.chain'_cons.mp h).2 q hq

/-- Boundary lanes cover exactly the pixels between the first and the
last boundary. -/
theorem mkLanes_covered :
    ∀ (b0 : ℕ) (bs : List ℕ) (L : ℕ),
      List.Chain' (· < ·) (b0 :: bs) → (b0 :: bs).getLast? = some L →
      ∀ y : ℕ, covered (mkLanes (b0 :: bs)) y ↔ (b0 ≤ y ∧ y < L)
  | b0, [], L, _, hL, y => by
    rw [List.getLast?_singleton] at hL
    obtain rfl := Option.some.inj hL
    simp [mkLanes, covered]
  | b0, b1 :: bs, L, h, hL, y => by
    rw [List.getLast?_cons_cons] at hL
    have hbL : b1 ≤ L :=
      getLast?_ge_head b1 bs L (List.chain'_cons.mp h).2 hL
    have ih := mkLanes_covered b1 bs L (List.chain'_cons.mp h).2 hL y
    rw [show mkLanes (b0 :: b1 :: bs) = (b0, b1) :: mkLanes (b1 :: bs)
      from rfl]
    constructor
    · rintro ⟨p, hp, hp1, hp2⟩
      rcases List.mem_cons.mp hp with rfl | hp
      · exact ⟨hp1, lt_of_lt_of_le hp2 hbL⟩
      · have := ih.mp ⟨p, hp, hp1, hp2⟩
        have hb01 : b0 < b1 := (List.chain'_cons.mp h).1
        exact ⟨by omega, this.2⟩
    · rintro ⟨hy0, hyL⟩
      by_cases hyb : y < b1
      · exact ⟨(b0, b1), List.mem_cons_self _ _, hy0, hyb⟩
      · obtain ⟨p, hp, hp1, hp2⟩ := ih.mpr ⟨by omega, hyL⟩
        exact ⟨p, List.mem_cons_of_mem _ hp, hp1, hp2⟩

/-- Reading a constant list inside its range gives the constant. -/
theorem getD_replicate_of_lt (c : ℚ) (n k : ℕ) (h : k < n) :
    (List.replicate n c).getD k 0 = c := by
  simp [List.getD_eq_getElem?_getD, List.getElem?_replicate, h]

/-- A constant signal has no strict local maxima. -/
theorem localMaximaAux_const (c : ℚ) (n iMax : ℕ) (hn : iMax < n) :
    ∀ (fuel i : ℕ), localMaximaAux (List.replicate n c) iMax fuel i = []
  | 0, _ => rfl
  | fuel + 1, i => by
    simp only [localMaximaAux]
    split
    · next hi =>
      rw [if_neg, localMaximaAux_const c n iMax hn fuel (i + 1)]
      rw [getD_replicate_of_lt c n (i - 1) (by omega),
        getD_replicate_of_lt c n i (by omega)]
      exact lt_irrefl c
    · rfl

/-- `localMaxima` of a constant signal is empty. -/
theorem localMaxima_replicate (c : ℚ) (n : ℕ) (hn : 0 < n) :
    localMaxima (List.replicate n c) = [] := by
  unfold localMaxima
  rw [List.length_replicate]
  exact localMaximaAux_const c n (n - 1) (by omega) n 1

/-- The equal-width fallback lanes are nonempty ranges. -/
theorem equal_division_mem_lt (n lw : ℕ) (hlw : 0 < lw) :
    ∀ p ∈ (List.range n).map fun i => (i * lw, (i + 1) * lw), p.1 < p.2 := by
  intro p hp
  obtain ⟨i, _, rfl⟩ := List.mem_map.mp hp
  exact (Nat.mul_lt_mul_right hlw).mpr (Nat.lt_succ_self i)

/-- The equal-width fallback lanes are ordered and pairwise disjoint. -/
theorem equal_division_pairwise (n lw : ℕ) :
    List.Pairwise (fun p q : ℕ × ℕ => p.2 ≤ q.1)
      ((List.range n).map fun i => (i * lw, (i + 1) * lw)) := by
  refine List.pairwise_map.mpr ((List.pairwise_lt_range n).imp ?_)
  intro i j hij
  exact Nat.mul_le_mul_right lw hij

/-- The equal-width fallback lanes cover exactly `[0, n·lw)`. -/
theorem covered_equal_division (n lw : ℕ) (hlw : 0 < lw) (y : ℕ) :
    covered ((List.range n).map fun i => (i * lw, (i + 1) * lw)) y ↔
      y < n * lw := by
  constructor
  · rintro ⟨p, hp, h1, h2⟩
    obtain ⟨i, hi, rfl⟩ := List.mem_map.mp hp
    exact lt_of_lt_of_le h2
      (Nat.mul_le_mul_right lw (List.mem_range.mp hi))
  · intro hy
    refine ⟨(y / lw * lw, (y / lw + 1) * lw), ?_, Nat.div_mul_le_self y lw, ?_⟩
    · exact List.mem_map.mpr ⟨y / lw,
        List.mem_range.mpr ((Nat.div_lt_iff_lt_mul hlw).mpr hy), rfl⟩
    · rw [Nat.add_mul, one_mul, ← Nat.mul_comm lw (y / lw)]
      have h2 := Nat.lt_mul_div_succ y hlw
      rw [Nat.mul_add, Nat.mul_one] at h2
      omega

/-- Specification of the boundary construction: ordered, pairwise
disjoint, nonempty lanes whose union is an initial segment `[0, U)`; `U`
is the full width except possibly in the equal-division fallback, where
it is `n·(width/n)`. -/
theorem lanesFromPeaks_spec (width : ℕ) (num_lanes : Option ℕ)
    (peaks : List ℕ) (hwide : 51 ≤ width)
    (hN : ∀ n, num_lanes = some n → n < width)
    (hb : ∀ p ∈ peaks, 1 ≤ p ∧ p < width - 1)
    (hpw : List.Pairwise (· < ·) peaks) :
    ∃ U,
      (∀ p ∈ lanesFromPeaks width num_lanes peaks, p.1 < p.2) ∧
      List.Pairwise (fun p q : ℕ × ℕ => p.2 ≤ q.1)
        (lanesFromPeaks width num_lanes peaks) ∧
      (∀ y, covered (lanesFromPeaks width num_lanes peaks) y ↔ y < U) ∧
      (U = width ∨ ∃ n, num_lanes = some n ∧ U = n * (width / n)) := by
  cases peaks with
  | nil =>
    cases num_lanes with
    | none =>
      refine ⟨width, ?_, ?_, ?_, Or.inl rfl⟩ <;>
        simp [lanesFromPeaks, covered] <;> omega
    | some n =>
      by_cases hn0 : n = 0
      · subst hn0
        refine ⟨width, ?_, ?_, ?_, Or.inl rfl⟩ <;>
          simp [lanesFromPeaks, covered] <;> omega
      · have hnw : n < width := hN n rfl
        have hlw : 0 < width / n :=
          (Nat.one_le_div_iff (Nat.pos_of_ne_zero hn0)).mpr (le_of_lt hnw)
        refine ⟨n * (width / n), ?_, ?_, ?_, Or.inr ⟨n, rfl, rfl⟩⟩
        · simpa [lanesFromPeaks, hn0] using
            equal_division_mem_lt n (width / n) hlw
        · simpa [lanesFromPeaks, hn0] using
            equal_division_pairwise n (width / n)
        · intro y
          simpa [lanesFromPeaks, hn0] using
            covered_equal_division n (width / n) hlw y
  | cons p ps =>
    have hpwB : List.Pairwise (· < ·) (0 :: ((p :: ps) ++ [width])) := by
      refine List.pairwise_cons.mpr ⟨?_, ?_⟩
      · intro b hbmem
        rcases List.mem_append.mp hbmem with hbp | hbw
        · exact lt_of_lt_of_le one_pos (hb b hbp).1
        · obtain rfl := List.mem_singleton.mp hbw
          omega
      · refine List.pairwise_append.mpr
          ⟨hpw, List.pairwise_singleton _ _, ?_⟩
        intro a ha b hbmem
        obtain rfl := List.mem_singleton.mp hbmem
        have := (hb a ha).2
        omega
    have hchain : List.Chain' (· < ·) (0 :: ((p :: ps) ++ [width])) :=
      List.chain'_iff_pairwise.mpr hpwB
    have hlast : (0 :: ((p :: ps) ++ [width])).getLast? = some width := by
      rw [show (0 :: ((p :: ps) ++ [width])) = ((0 :: p :: ps) ++ [width])
        from by simp]
      exact List.getLast?_concat _
    refine ⟨width, ?_, ?_, ?_, Or.inl rfl⟩
    · simpa [lanesFromPeaks] using
        mkLanes_mem_lt (0 :: ((p :: ps) ++ [width])) hchain
    · simpa [lanesFromPeaks] using
        mkLanes_pairwise (0 :: ((p :: ps) ++ [width])) hchain
    · intro y
      have hcov := mkLanes_covered 0 ((p :: ps) ++ [width]) width hchain
        hlast y
      have : covered (lanesFromPeaks width num_lanes (p :: ps)) y ↔
          covered (mkLanes (0 :: ((p :: ps) ++ [width]))) y := by
        simp [lanesFromPeaks]
      rw [this, hcov]
      omega

/-! ### Claim theorems -/

/-- C10: for every method string other than `"total_intensity"`,
`normalize_lanes` returns the gel result completely unchanged — no
`normalized_intensity` fields are added, no error is raised, and no
indication of the unrecognized method is given. -/
theorem normalize_lanes_unknown_method_id
    (g : GelAnalysisResult) (r : Option ℤ) (m : String)
    (hm : m ≠ "total_intensity") :
    normalize_lanes g r m = Except.ok g := by
  unfold normalize_lanes
  rw [if_neg hm]

theorem normalize_lanes_unknown_method_id_witness :
    "loading_control" ≠ "total_intensity" ∧
      normalize_lanes gSingle none "loading_control" = Except.ok gSingle :=
  ⟨by decide,
    normalize_lanes_unknown_method_id gSingle none "loading_control"
      (by decide)⟩

/-- C4 (counterexample): with the default method and no reference lane,
the call writes `normalized_intensity` into the band records reachable
from its argument — the post-call state of the input (which is also the
returned object) differs from the original input. -/
theorem normalize_lanes_writes_into_input :
    normalize_lanes gSingle none "total_intensity" =
        Except.ok gSingleWritten ∧
      gSingleWritten ≠ gSingle := by
  constructor
  · norm_num [normalize_lanes, gSingle, gSingleWritten, mkLaneRes, mkBand,
      laneTotal, listMean, enrichLane, writeNormalized, pyGet]
  · decide

/-- C4 (amended): by default (`method='total_intensity'`, no reference
lane), `normalize_lanes` mutates its input in place: whenever some band
of the input lacks a `normalized_intensity` field, the argument's
post-call state (which is also the returned object) is not the original
input value. -/
theorem normalize_lanes_mutates_default
    (g : GelAnalysisResult) (lane : LaneResult) (b : Band)
    (hl : lane ∈ g.lanes) (hb : b ∈ lane.bands)
    (hn : b.normalized_intensity = none) :
    normalize_lanes g none "total_intensity" ≠ Except.ok g := by
  intro h
  unfold normalize_lanes at h
  rw [if_pos rfl] at h
  have hg := Except.ok.inj h
  exact normalized_write_ne laneTotal _ g.lanes lane b hl hb hn
    (congrArg GelAnalysisResult.lanes hg)

theorem normalize_lanes_mutates_default_witness :
    (mkLaneRes 1 [mkBand 2]) ∈ gSingle.lanes ∧
      (mkBand 2) ∈ (mkLaneRes 1 [mkBand 2]).bands ∧
      (mkBand 2).normalized_intensity = none ∧
      normalize_lanes gSingle none "total_intensity" ≠ Except.ok gSingle :=
  ⟨by decide, by decide, by decide,
    normalize_lanes_mutates_default gSingle (mkLaneRes 1 [mkBand 2])
      (mkBand 2) (by decide) (by decide) (by decide)⟩

/-- C7: with a valid reference lane index `r`, after normalization every
band in lane `r` satisfies `normalized_intensity = total_intensity` —
the reference lane's scale factor is 1, including the degenerate case of
a zero lane total, which maps to factor 1 rather than an error. -/
theorem normalize_lanes_reference_identity
    (g : GelAnalysisResult) (r : ℕ) (hr : r < g.lanes.length) :
    ∃ g' lane',
      normalize_lanes g (some (r : ℤ)) "total_intensity" = Except.ok g' ∧
      g'.lanes.get? r = some lane' ∧
      ∀ b ∈ lane'.bands, b.normalized_intensity = some b.total_intensity := by
  have h1 : g.lanes.get? r = some (g.lanes.get ⟨r, hr⟩) := List.get?_eq_get hr
  have h2 : (g.lanes.map laneTotal).get? r
      = some (laneTotal (g.lanes.get ⟨r, hr⟩)) := by
    rw [List.get?_map, h1, Option.map_some']
  have h3 : pyGet (g.lanes.map laneTotal) (r : ℤ)
      = some (laneTotal (g.lanes.get ⟨r, hr⟩)) := by
    rw [pyGet_natCast]; exact h2
  refine ⟨{ g with
      lanes := (g.lanes.zip (g.lanes.map laneTotal)).map
        (enrichLane (laneTotal (g.lanes.get ⟨r, hr⟩))) },
    enrichLane (laneTotal (g.lanes.get ⟨r, hr⟩))
      (g.lanes.get ⟨r, hr⟩, laneTotal (g.lanes.get ⟨r, hr⟩)),
    ?_, ?_, ?_⟩
  · unfold normalize_lanes
    rw [if_pos rfl]
    simp only [h3]
  · simp only [List.get?_map, zip_get?, h1, h2, Option.map_some',
      Option.some_bind]
  · intro b hb
    simp only [enrichLane, List.mem_map] at hb
    obtain ⟨b0, _, rfl⟩ := hb
    show some (b0.total_intensity *
        (if laneTotal (g.lanes.get ⟨r, hr⟩) > 0 then
          laneTotal (g.lanes.get ⟨r, hr⟩) / laneTotal (g.lanes.get ⟨r, hr⟩)
        else 1)) = some b0.total_intensity
    rcases lt_or_le 0 (laneTotal (g.lanes.get ⟨r, hr⟩)) with hx | hx
    · rw [if_pos hx, div_self (ne_of_gt hx), mul_one]
    · rw [if_neg (not_lt.mpr hx), mul_one]

theorem normalize_lanes_reference_identity_witness :
    0 < gZeroBand.lanes.length ∧
      (∃ g' lane',
        normalize_lanes gZeroBand (some ((0 : ℕ) : ℤ)) "total_intensity" =
          Except.ok g' ∧
        g'.lanes.get? 0 = some lane' ∧
        ∀ b ∈ lane'.bands,
          b.normalized_intensity = some b.total_intensity) :=
  ⟨by decide, normalize_lanes_reference_identity gZeroBand 0 (by decide)⟩

/-- The arithmetic tail of `compare_bands` errors exactly when the
denominator band total is zero or the numerator band total is zero. -/
theorem mkComparison_error_iff (t1 t2 : ℚ) :
    (∃ e, mkComparison t1 t2 = Except.error e) ↔ (t2 = 0 ∨ t1 = 0) := by
  unfold mkComparison
  by_cases hz : t2 = 0
  · rw [if_pos hz]
    exact iff_of_true ⟨_, rfl⟩ (Or.inl hz)
  · rw [if_neg hz]
    by_cases hone : (1 : ℚ) ≤ t1 / t2
    · rw [if_pos hone]
      refine iff_of_false ?_ ?_
      · rintro ⟨e, he⟩
        exact Except.noConfusion he
      · rintro (h | h)
        · exact hz h
        · rw [h, zero_div] at hone
          exact absurd hone (by norm_num)
    · rw [if_neg hone]
      by_cases hzr : t1 / t2 = 0
      · rw [if_pos hzr]
        have ht1 : t1 = 0 := by
          rcases div_eq_zero_iff.mp hzr with h | h
          · exact h
          · exact absurd h hz
        exact iff_of_true ⟨_, rfl⟩ (Or.inr ht1)
      · rw [if_neg hzr]
        refine iff_of_false ?_ ?_
        · rintro ⟨e, he⟩
          exact Except.noConfusion he
        · rintro (h | h)
          · exact hz h
          · exact hzr (by rw [h, zero_div])

/-- C6 (counterexample): with lane 0 compared against itself at a valid
band index whose band has total intensity 0, `compare_bands` returns the
structured error, not ratio 1 / fold change 1 / percent difference 0. -/
theorem compare_bands_same_lane_zero_band_error :
    bandLookup gZeroBand 0 0 = some (mkBand 0) ∧
      compare_bands gZeroBand 0 0 0 = Except.error "float division by zero" := by
  constructor
  · decide
  · norm_num [compare_bands, gZeroBand, mkLaneRes, mkBand, pyGet, mkComparison]

/-- C6 (amended): for every valid lane index `a` and valid band index
whose band has nonzero total intensity, comparing lane `a` with itself
yields ratio 1, fold change 1 and percent difference 0. -/
theorem compare_bands_same_lane_unit
    (g : GelAnalysisResult) (a bi : ℕ) (lane : LaneResult) (b : Band)
    (hl : g.lanes.get? a = some lane) (hb : lane.bands.get? bi = some b)
    (ht : b.total_intensity ≠ 0) :
    compare_bands g (a : ℤ) (a : ℤ) (bi : ℤ) = Except.ok
      { lane1_intensity := b.total_intensity
        lane2_intensity := b.total_intensity
        ratio := 1
        fold_change := 1
        percent_difference := 0 } := by
  have hA : pyGet g.lanes (a : ℤ) = some lane := by
    rw [pyGet_natCast]; exact hl
  have hB : pyGet lane.bands (bi : ℤ) = some b := by
    rw [pyGet_natCast]; exact hb
  unfold compare_bands
  simp only [hA, hB]
  unfold mkComparison
  rw [if_neg ht, div_self ht, if_pos le_rfl, sub_self, zero_div, zero_mul]

theorem compare_bands_same_lane_unit_witness :
    gSingle.lanes.get? 0 = some (mkLaneRes 1 [mkBand 2]) ∧
      (mkLaneRes 1 [mkBand 2]).bands.get? 0 = some (mkBand 2) ∧
      (mkBand 2).total_intensity ≠ 0 ∧
      compare_bands gSingle ((0 : ℕ) : ℤ) ((0 : ℕ) : ℤ) ((0 : ℕ) : ℤ) =
        Except.ok
          { lane1_intensity := (mkBand 2).total_intensity
            lane2_intensity := (mkBand 2).total_intensity
            ratio := 1
            fold_change := 1
            percent_difference := 0 } :=
  ⟨by decide, by decide, by decide,
    compare_bands_same_lane_unit gSingle 0 0 (mkLaneRes 1 [mkBand 2])
      (mkBand 2) (by decide) (by decide) (by decide)⟩

/-- C5 (counterexample): with both indices valid and lane 2's band total
nonzero, but lane 1's band total zero, `compare_bands` still returns the
structured error (the `-1/ratio` branch divides by the zero ratio) — the
claimed "exactly when" condition is violated. -/
theorem compare_bands_zero_numerator_error :
    bandLookup gZeroFive 0 0 = some (mkBand 0) ∧
      bandLookup gZeroFive 1 0 = some (mkBand 5) ∧
      (mkBand 5).total_intensity ≠ 0 ∧
      compare_bands gZeroFive 0 1 0 = Except.error "float division by zero" := by
  refine ⟨by decide, by decide, by norm_num [mkBand], ?_⟩
  norm_num [compare_bands, gZeroFive, mkLaneRes, mkBand, pyGet, mkComparison]

/-- C5 (amended): `compare_bands` returns a structured error exactly when
a lane or band index is out of range, or lane 2's band total intensity is
zero, or lane 1's band total intensity is zero (whose zero ratio makes
the fold-change reciprocal divide by zero); otherwise it returns the
comparison metrics. -/
theorem compare_bands_error_iff (g : GelAnalysisResult) (l1 l2 bi : ℤ) :
    (∃ e, compare_bands g l1 l2 bi = Except.error e) ↔
      bandLookup g l1 bi = none ∨ bandLookup g l2 bi = none ∨
      (∃ b1 b2, bandLookup g l1 bi = some b1 ∧
        bandLookup g l2 bi = some b2 ∧
        (b2.total_intensity = 0 ∨ b1.total_intensity = 0)) := by
  unfold compare_bands bandLookup
  cases h1 : pyGet g.lanes l1 with
  | none => simp [h1]
  | some L1 =>
    cases h2 : pyGet L1.bands bi with
    | none => simp [h1, h2]
    | some b1 =>
      cases h3 : pyGet g.lanes l2 with
      | none => simp [h1, h2, h3]
      | some L2 =>
        cases h4 : pyGet L2.bands bi with
        | none => simp [h1, h2, h3, h4]
        | some b2 =>
          simp only [h1, h2, h3, h4, Option.some_bind]
          rw [mkComparison_error_iff]
          constructor
          · intro h
            exact Or.inr (Or.inr ⟨b1, b2, rfl, rfl, h⟩)
          · rintro (h | h | ⟨x, y, hx, hy, hor⟩)
            · exact absurd h (Option.some_ne_none b1)
            · exact absurd h (Option.some_ne_none b2)
            · obtain rfl := Option.some.inj hx
              obtain rfl := Option.some.inj hy
              exact hor

/-- C1 (code bug): queried beyond the marker range, the code returns the
*clamped* endpoint weight, not the log-linear extrapolation: with markers
at positions 10 and 20 of weights 100 and 10 kDa, a band at position 30
yields 10 (the last marker's weight) although the log-linear
extrapolation the spec and the code's own comment describe yields 1. -/
theorem calculate_molecular_weight_clamps_beyond_markers :
    calculate_molecular_weight 30 [10, 20] [100, 10] = 10 ∧
      spec_extrapolated_weight 30 10 20 100 10 = 1 ∧ (10 : ℝ) ≠ 1 := by
  have h10 : Real.logb 10 10 = 1 := Real.logb_self_eq_one (by norm_num)
  have h100 : Real.logb 10 100 = 2 := by
    rw [show (100 : ℝ) = 10 ^ (2 : ℕ) by norm_num, Real.logb_pow, h10]
    norm_num
  refine ⟨?_, ?_, by norm_num⟩
  · unfold calculate_molecular_weight
    simp only [List.map_cons, List.map_nil, List.zip_cons_cons,
      List.zip_nil_right]
    simp only [interp, interpAux]
    rw [if_neg (by norm_num : ¬(30 : ℝ) < 10),
      if_neg (by norm_num : ¬(30 : ℝ) ≤ 20), h10, Real.rpow_one]
  · unfold spec_extrapolated_weight
    rw [h10, h100]
    rw [show (2 : ℝ) + (1 - 2) / (20 - 10) * (30 - 10) = 0 by norm_num,
      Real.rpow_zero]

/-- C9: evaluated exactly at the i-th marker's position (markers strictly
ascending, positive weights), `calculate_molecular_weight` returns the
i-th marker's weight — here exactly, hence within the claimed 1e-6
relative tolerance. -/
theorem calculate_molecular_weight_at_marker
    (marker_positions marker_weights : List ℝ) (i : ℕ)
    (hsort : List.Chain' (· < ·) marker_positions)
    (hw : ∀ w ∈ marker_weights, 0 < w)
    (hi : i < marker_positions.length) (hi' : i < marker_weights.length) :
    |calculate_molecular_weight (marker_positions.get ⟨i, hi⟩)
        marker_positions marker_weights -
      marker_weights.get ⟨i, hi'⟩| ≤ marker_weights.get ⟨i, hi'⟩ / 1000000 := by
  have hq : (marker_positions.zip
      (marker_weights.map (Real.logb 10))).get? i =
      some (marker_positions.get ⟨i, hi⟩,
        Real.logb 10 (marker_weights.get ⟨i, hi'⟩)) := by
    rw [List.get?_zip_eq_some]
    exact ⟨List.get?_eq_get hi, by rw [List.get?_map, List.get?_eq_get hi']; rfl⟩
  have hchain := chain_zip_fst marker_positions
    (marker_weights.map (Real.logb 10)) hsort
  have hinterp := interp_at_get? _ hchain i _ hq
  have hwpos : 0 < marker_weights.get ⟨i, hi'⟩ :=
    hw _ (List.get_mem _ _ _)
  unfold calculate_molecular_weight
  rw [hinterp, Real.rpow_logb (by norm_num) (by norm_num) hwpos, sub_self,
    abs_zero]
  positivity

theorem calculate_molecular_weight_at_marker_witness :
    List.Chain' (· < ·) [(0 : ℝ), 10] ∧ (∀ w ∈ [(100 : ℝ), 10], 0 < w) ∧
      |calculate_molecular_weight (([(0 : ℝ), 10]).get ⟨0, by norm_num⟩)
          [(0 : ℝ), 10] [(100 : ℝ), 10] -
        ([(100 : ℝ), 10]).get ⟨0, by norm_num⟩| ≤
        ([(100 : ℝ), 10]).get ⟨0, by norm_num⟩ / 1000000 :=
  ⟨by simp only [List.chain'_cons, List.chain'_singleton, and_true]; norm_num,
    by
      simp only [List.mem_cons, List.not_mem_nil, or_false]
      rintro w (rfl | rfl) <;> norm_num,
    calculate_molecular_weight_at_marker [0, 10] [100, 10] 0
      (by simp only [List.chain'_cons, List.chain'_singleton, and_true]
          norm_num)
      (by
        simp only [List.mem_cons, List.not_mem_nil, or_false]
        rintro w (rfl | rfl) <;> norm_num)
      (by norm_num) (by norm_num)⟩

/-- C8: for a lane of height `h ≥ 1` (width `w ≥ 1`) and a band position
in `[0, h)` with requested width 20 (explicitly or by default), the band
region is the row range `[max(0, pos-10), min(h, pos+10))` clamped to the
lane — no out-of-bounds indexing — and the metrics record is computed
over that truncated region (`area` counts exactly its pixels) instead of
raising an error. -/
theorem quantify_band_clamped_region
    (lane_image : List (List ℚ)) (h w : ℕ) (pos : ℤ) (bwOpt : Option ℚ)
    (hh : lane_image.length = h)
    (hw : ∀ row ∈ lane_image, row.length = w) (hw0 : 0 < w)
    (hpos0 : 0 ≤ pos) (hposh : pos < h)
    (hbw : bwOpt = none ∨ bwOpt = some 20) :
    ∃ m, quantify_band lane_image pos bwOpt = Except.ok m ∧
      m.total_intensity =
        ((lane_image.drop (max 0 (pos - 10)).toNat).take
          ((min (h : ℤ) (pos + 10)).toNat -
            (max 0 (pos - 10)).toNat)).flatten.sum ∧
      m.area =
        ((min (h : ℤ) (pos + 10)).toNat - (max 0 (pos - 10)).toNat) * w := by
  have hbw20 : bwOpt.getD 20 = 20 := by rcases hbw with rfl | rfl <;> rfl
  have hInt1 : pyInt ((pos : ℚ) - 20 / 2) = pos - 10 := by
    rw [show ((pos : ℚ) - 20 / 2) = ((pos - 10 : ℤ) : ℚ) by
      push_cast; ring, pyInt_intCast]
  have hInt2 : pyInt ((pos : ℚ) + 20 / 2) = pos + 10 := by
    rw [show ((pos : ℚ) + 20 / 2) = ((pos + 10 : ℤ) : ℚ) by
      push_cast; ring, pyInt_intCast]
  have ha0 : (0 : ℤ) ≤ max 0 (pos - 10) := le_max_left 0 _
  have hal : max 0 (pos - 10) ≤ (lane_image.length : ℤ) := by
    rw [hh]; omega
  have hb0 : (0 : ℤ) ≤ min (h : ℤ) (pos + 10) := by omega
  have hbl : min (h : ℤ) (pos + 10) ≤ (lane_image.length : ℤ) := by
    rw [hh]; omega
  have hslice := pySlice_nonneg lane_image _ _ ha0 hal hb0 hbl
  have habN : (max 0 (pos - 10)).toNat < (min (h : ℤ) (pos + 10)).toNat := by
    omega
  have hrows : ∀ r ∈ (lane_image.drop (max 0 (pos - 10)).toNat).take
      ((min (h : ℤ) (pos + 10)).toNat - (max 0 (pos - 10)).toNat),
      r.length = w := fun r hr =>
    hw r (List.mem_of_mem_drop (List.mem_of_mem_take hr))
  have hlenreg : ((lane_image.drop (max 0 (pos - 10)).toNat).take
      ((min (h : ℤ) (pos + 10)).toNat - (max 0 (pos - 10)).toNat)).length =
      (min (h : ℤ) (pos + 10)).toNat - (max 0 (pos - 10)).toNat := by
    rw [List.length_take, List.length_drop, hh]
    omega
  have hflatlen : ((lane_image.drop (max 0 (pos - 10)).toNat).take
      ((min (h : ℤ) (pos + 10)).toNat -
        (max 0 (pos - 10)).toNat)).flatten.length =
      ((min (h : ℤ) (pos + 10)).toNat - (max 0 (pos - 10)).toNat) * w := by
    rw [List.length_flatten, sum_map_length_const _ w hrows, hlenreg]
  have hflatne : ¬ ((lane_image.drop (max 0 (pos - 10)).toNat).take
      ((min (h : ℤ) (pos + 10)).toNat -
        (max 0 (pos - 10)).toNat)).flatten.isEmpty = true := by
    rw [List.isEmpty_iff_length_eq_zero, hflatlen]
    have hp : 0 < ((min (h : ℤ) (pos + 10)).toNat -
        (max 0 (pos - 10)).toNat) * w := Nat.mul_pos (by omega) hw0
    omega
  have heval : quantify_band lane_image pos bwOpt = Except.ok
      { position := pos
        mean_intensity :=
          ((lane_image.drop (max 0 (pos - 10)).toNat).take
            ((min (h : ℤ) (pos + 10)).toNat -
              (max 0 (pos - 10)).toNat)).flatten.sum /
          (((lane_image.drop (max 0 (pos - 10)).toNat).take
            ((min (h : ℤ) (pos + 10)).toNat -
              (max 0 (pos - 10)).toNat)).flatten.length : ℚ)
        max_intensity := pyMax ((lane_image.drop (max 0 (pos - 10)).toNat).take
          ((min (h : ℤ) (pos + 10)).toNat -
            (max 0 (pos - 10)).toNat)).flatten
        total_intensity := ((lane_image.drop (max 0 (pos - 10)).toNat).take
          ((min (h : ℤ) (pos + 10)).toNat -
            (max 0 (pos - 10)).toNat)).flatten.sum
        area := ((lane_image.drop (max 0 (pos - 10)).toNat).take
          ((min (h : ℤ) (pos + 10)).toNat -
            (max 0 (pos - 10)).toNat)).flatten.length
        volume := ((lane_image.drop (max 0 (pos - 10)).toNat).take
          ((min (h : ℤ) (pos + 10)).toNat -
            (max 0 (pos - 10)).toNat)).flatten.sum
        width := 20 } := by
    simp only [quantify_band, hbw20, hInt1, hInt2, hh]
    rw [hslice, if_neg hflatne]
  exact ⟨_, heval, rfl, hflatlen⟩

theorem quantify_band_clamped_region_witness :
    ([[(1 : ℚ)], [2]] : List (List ℚ)).length = 2 ∧
      (∀ row ∈ ([[(1 : ℚ)], [2]] : List (List ℚ)), row.length = 1) ∧
      (0 : ℤ) ≤ 0 ∧ (0 : ℤ) < (2 : ℕ) ∧
      (∃ m, quantify_band [[(1 : ℚ)], [2]] 0 none = Except.ok m ∧
        m.total_intensity =
          ((([[(1 : ℚ)], [2]] : List (List ℚ)).drop
              (max 0 ((0 : ℤ) - 10)).toNat).take
            ((min ((2 : ℕ) : ℤ) ((0 : ℤ) + 10)).toNat -
              (max 0 ((0 : ℤ) - 10)).toNat)).flatten.sum ∧
        m.area =
          ((min ((2 : ℕ) : ℤ) ((0 : ℤ) + 10)).toNat -
            (max 0 ((0 : ℤ) - 10)).toNat) * 1) :=
  ⟨rfl, by decide, by decide, by decide,
    quantify_band_clamped_region [[(1 : ℚ)], [2]] 2 1 0 none rfl (by decide)
      (by decide) (by decide) (by decide) (Or.inl rfl)⟩

/-- C3 (code bug): a 1×50 image makes `detect_lanes` raise the
`savgol_filter` `ValueError` (window 51 > profile length 50), and a
10-row lane makes `detect_bands` raise likewise (window 11 > 10) — narrow
inputs fault instead of clamping or skipping the smoothing window. -/
theorem narrow_inputs_fault :
    detect_lanes id [List.replicate 50 (0 : ℚ)] none "projection" =
        Except.error
          "ValueError: window_length must be less than or equal to the size of x" ∧
      detect_bands id (List.replicate 10 [(0 : ℚ)]) 20 =
        Except.error
          "ValueError: window_length must be less than or equal to the size of x" := by
  constructor
  · rfl
  · rfl

/-- C2 (counterexample): a constant 1×52 image with 5 requested lanes
finds no separators, and the equal-division fallback covers only
`[0, 50)` — column 50 lies in `[0, 52)` but in no lane, so the union of
the boundaries is not `[0, w)`. -/
theorem detect_lanes_equal_division_not_full_cover :
    detect_lanes id [List.replicate 52 (0 : ℚ)] (some 5) "projection" =
        Except.ok [(0, 10), (10, 20), (20, 30), (30, 40), (40, 50)] ∧
      ¬ covered [(0, 10), (10, 20), (20, 30), (30, 40), (40, 50)] 50 ∧
      50 < ([List.replicate 52 (0 : ℚ)].headD []).length := by
  refine ⟨?_, by decide, by decide⟩
  have hlen : ([List.replicate 52 (0 : ℚ)].headD []).length = 52 := by simp
  have hprof : ((List.range (([List.replicate 52 (0 : ℚ)].headD []).length)).map
      fun j => (([List.replicate 52 (0 : ℚ)]).map fun row => row.getD j 0).sum)
      = List.replicate 52 (0 : ℚ) := by
    rw [hlen]
    have hconst : ∀ j ∈ List.range 52,
        (([List.replicate 52 (0 : ℚ)]).map fun row => row.getD j 0).sum =
          (fun _ => (0 : ℚ)) j := by
      intro j hj
      simp only [List.map_cons, List.map_nil, List.sum_cons, List.sum_nil,
        add_zero]
      exact getD_replicate_of_lt 0 52 j (List.mem_range.mp hj)
    rw [List.map_congr_left hconst, List.map_const', List.length_range]
  have hfp : find_peaks_dist (List.replicate 52 (0 : ℚ)) 8 = Except.ok [] := by
    unfold find_peaks_dist
    rw [if_neg (by omega), localMaxima_replicate 0 52 (by omega)]
    rfl
  simp only [detect_lanes, savgol_filter, hprof, hlen, List.length_replicate,
    id_eq]
  norm_num
  rw [hfp]
  decide

/-- C2 (amended): whenever `detect_lanes` runs to completion (width at
least the smoothing window of 51, and a requested lane count below the
width so the peak distance is valid), the returned lanes are nonempty
half-open ranges, ordered and pairwise disjoint, and their union is the
initial segment `[0, U)` where `U` is the image width — except possibly
on the equal-division fallback, where `U = N·(w/N)` (equal to `w` only
when `N` divides `w`). -/
theorem detect_lanes_boundaries_spec
    (kernel : List ℚ → List ℚ) (image : List (List ℚ))
    (num_lanes : Option ℕ)
    (hk : ∀ l, (kernel l).length = l.length)
    (hwide : 51 ≤ (image.headD []).length)
    (hN : ∀ n, num_lanes = some n → n < (image.headD []).length) :
    ∃ lanes U,
      detect_lanes kernel image num_lanes "projection" = Except.ok lanes ∧
      (∀ p ∈ lanes, p.1 < p.2) ∧
      List.Pairwise (fun p q : ℕ × ℕ => p.2 ≤ q.1) lanes ∧
      (∀ y, covered lanes y ↔ y < U) ∧
      (U = (image.headD []).length ∨
        ∃ n, num_lanes = some n ∧
          U = n * ((image.headD []).length / n)) := by
  have hw51 : ¬ (image.headD []).length < 51 := by omega
  have hXlen : ((kernel ((List.range (image.headD []).length).map
      fun j => (image.map fun row => row.getD j 0).sum)).map
      fun v => -v).length = (image.headD []).length := by
    rw [List.length_map, hk, List.length_map, List.length_range]
  rcases num_lanes with _ | n
  · -- num_lanes = none, distance 50
    obtain ⟨peaks, hfp⟩ : ∃ pk,
        find_peaks_dist ((kernel ((List.range (image.headD []).length).map
          fun j => (image.map fun row => row.getD j 0).sum)).map
          fun v => -v) 50 = Except.ok pk := by
      unfold find_peaks_dist
      rw [if_neg (by omega)]
      exact ⟨_, rfl⟩
    have hspec := find_peaks_dist_spec _ _ peaks hfp
    have hb : ∀ p ∈ peaks, 1 ≤ p ∧ p < (image.headD []).length - 1 := by
      intro p hp
      have h := hspec.1 p hp
      rwa [hXlen] at h
    obtain ⟨U, h1, h2, h3, h4⟩ := lanesFromPeaks_spec
      (image.headD []).length none peaks hwide
      (fun n h => Option.noConfusion h) hb hspec.2
    refine ⟨lanesFromPeaks (image.headD []).length none peaks, U, ?_,
      h1, h2, h3, h4⟩
    simp only [detect_lanes, savgol_filter, List.length_map,
      List.length_range, hw51, if_false, eq_self_iff_true, if_true, hfp]
  · by_cases hn0 : n = 0
    · subst hn0
      obtain ⟨peaks, hfp⟩ : ∃ pk,
          find_peaks_dist ((kernel ((List.range (image.headD []).length).map
            fun j => (image.map fun row => row.getD j 0).sum)).map
            fun v => -v) 50 = Except.ok pk := by
        unfold find_peaks_dist
        rw [if_neg (by omega)]
        exact ⟨_, rfl⟩
      have hspec := find_peaks_dist_spec _ _ peaks hfp
      have hb : ∀ p ∈ peaks, 1 ≤ p ∧ p < (image.headD []).length - 1 := by
        intro p hp
        have h := hspec.1 p hp
        rwa [hXlen] at h
      obtain ⟨U, h1, h2, h3, h4⟩ := lanesFromPeaks_spec
        (image.headD []).length (some 0) peaks hwide
        (fun n h => by
          obtain rfl := Option.some.inj h
          omega) hb hspec.2
      refine ⟨lanesFromPeaks (image.headD []).length (some 0) peaks, U, ?_,
        h1, h2, h3, h4⟩
      simp only [detect_lanes, savgol_filter, List.length_map,
        List.length_range, hw51, if_false, eq_self_iff_true, if_true, hfp]
    · have hnw : n < (image.headD []).length := hN n rfl
      have hd1 : ¬ ((image.headD []).length / (n + 1) < 1) := by
        have h1 : 1 ≤ (image.headD []).length / (n + 1) :=
          (Nat.one_le_div_iff (Nat.succ_pos n)).mpr (by omega)
        omega
      obtain ⟨peaks, hfp⟩ : ∃ pk,
          find_peaks_dist ((kernel ((List.range (image.headD []).length).map
            fun j => (image.map fun row => row.getD j 0).sum)).map
            fun v => -v) ((image.headD []).length / (n + 1)) =
          Except.ok pk := by
        unfold find_peaks_dist
        rw [if_neg hd1]
        exact ⟨_, rfl⟩
      have hspec := find_peaks_dist_spec _ _ peaks hfp
      have hb : ∀ p ∈ peaks, 1 ≤ p ∧ p < (image.headD []).length - 1 := by
        intro p hp
        have h := hspec.1 p hp
        rwa [hXlen] at h
      obtain ⟨U, h1, h2, h3, h4⟩ := lanesFromPeaks_spec
        (image.headD []).length (some n) peaks hwide
        (fun m h => by
          obtain rfl := Option.some.inj h
          exact hnw) hb hspec.2
      refine ⟨lanesFromPeaks (image.headD []).length (some n) peaks, U, ?_,
        h1, h2, h3, h4⟩
      simp only [detect_lanes, savgol_filter, List.length_map,
        List.length_range, hw51, if_false, eq_self_iff_true, if_true, hn0,
        hfp]

theorem detect_lanes_boundaries_spec_witness :
    (∀ l : List ℚ, (id l).length = l.length) ∧
      51 ≤ (([List.replicate 51 (0 : ℚ)]).headD []).length ∧
      (∀ n, (none : Option ℕ) = some n →
        n < (([List.replicate 51 (0 : ℚ)]).headD []).length) ∧
      (∃ lanes U,
        detect_lanes id [List.replicate 51 (0 : ℚ)] none "projection" =
          Except.ok lanes ∧
        (∀ p ∈ lanes, p.1 < p.2) ∧
        List.Pairwise (fun p q : ℕ × ℕ => p.2 ≤ q.1) lanes ∧
        (∀ y, covered lanes y ↔ y < U) ∧
        (U = (([List.replicate 51 (0 : ℚ)]).headD []).length ∨
          ∃ n, (none : Option ℕ) = some n ∧
            U = n * ((([List.replicate 51 (0 : ℚ)]).headD []).length / n))) :=
  ⟨fun _ => rfl, by decide, fun _ h => Option.noConfusion h,
    detect_lanes_boundaries_spec id [List.replicate 51 (0 : ℚ)] none
      (fun _ => rfl) (by decide) (fun _ h => Option.noConfusion h)⟩

end GelAnalysis
